import Mathlib

/-!
Verification of the client-side narrated-video assembly pipeline of the
Storybook repository (`src/app/page.tsx`, function `downloadVideo`).

The embedding below translates, step by step, what `downloadVideo` does:

* guard: `if (!story || !bookRef.current) return;` (line 221);
* staging: every page image is written as `page{i}.png`, every narration
  clip as `audio{i}.mp3`, and the page-turn effect as `whoosh.mp3` into the
  FFmpeg virtual filesystem (lines 264-280);
* per-page encode: for each page index `i` one `ffmpeg.exec` call is issued
  with arguments `-loop 1 -i page{i}.png -i audio{i}.mp3 -i whoosh.mp3
  -filter_complex [0:v]format=yuv420p,fade=t=out:st={hold-fade}:d={fade}[v1];
  [1:a]adelay=0|0[a1];[2:a]adelay={(hold-fade)*1000}|{(hold-fade)*1000}[a2];
  [a1][a2]amix=inputs=2:duration=shortest[aout]
  -map [v1] -map [aout] -c:v libx264 -c:a aac -shortest seg{i}.mp4`
  (lines 287-310); the numeric and string parameters of that fixed argument
  template are captured by the structure `SegCmd`;
* manifest: the list `["ffconcat version 1.0"]` is extended with one line
  `file seg{i}.mp4` per page and joined with newlines into `list.txt`
  (lines 282, 311, 315-318);
* concatenation: one final `ffmpeg.exec` call
  `-f concat -safe 0 -i list.txt -c copy output.mp4` (lines 319-329).

Times are embedded as rationals: every arithmetic operation the source
performs on `holdTime`/`fadeTime` (subtraction, multiplication by 1000) is
exact on the values in range, so `ℚ` models the JavaScript numbers faithfully
for these claims.
-/

namespace Storybook

/-- Opaque binary buffer (the pipeline never inspects media bytes). -/
abbrev Bytes := List Nat

/-- One story page as the video pipeline consumes it: the rendered page image
bytes (from the html2canvas capture, step 2 of `downloadVideo`) and the
narration audio bytes (from the `/api/generateAudio` response, step 1). -/
structure PageAsset where
  imageBytes : Bytes
  audioBytes : Bytes
deriving DecidableEq

/-- The per-page FFmpeg invocation built in step 5 of `downloadVideo`
(page.tsx lines 287-310).  Each field records one parameter of the fixed
argument template:
`loopImage` = the `-loop 1` flag on the image input;
`imageInput`/`audioInput`/`whooshInput` = the three `-i` names;
`pixFmt` = the `format=` filter argument;
`fadeKind`, `fadeStart`, `fadeDur` = the `fade=t=out:st=…:d=…` arguments;
`narrDelayL/R` = the narration `adelay=0|0` (milliseconds, both channels);
`whooshDelayL/R` = the whoosh `adelay=…|…` (milliseconds, both channels);
`amixInputs`, `amixDuration` = the `amix=inputs=2:duration=shortest` arguments;
`vcodec`/`acodec` = `-c:v`/`-c:a`;
`shortestFlag` = the output `-shortest` flag;
`outName` = the output file name.
The source passes no `-t` (duration) option, so the structure has no
duration field. -/
structure SegCmd where
  loopImage : Bool
  imageInput : String
  audioInput : String
  whooshInput : String
  pixFmt : String
  fadeKind : String
  fadeStart : ℚ
  fadeDur : ℚ
  narrDelayL : ℚ
  narrDelayR : ℚ
  whooshDelayL : ℚ
  whooshDelayR : ℚ
  amixInputs : Nat
  amixDuration : String
  vcodec : String
  acodec : String
  shortestFlag : Bool
  outName : String
deriving DecidableEq

/-- The final concatenation invocation (page.tsx lines 319-329):
`-f concat -safe 0 -i list.txt -c copy output.mp4`. -/
structure ConcatCmd where
  inputFormat : String
  safeFlag : String
  inputName : String
  codec : String
  outName : String
deriving DecidableEq

/-- One `ffmpeg.exec` invocation of the pipeline: either a per-page segment
encode or the final concatenation. -/
inductive EngineCall where
  | encode (c : SegCmd)
  | concat (c : ConcatCmd)
deriving DecidableEq

/-- Name of the captured page image: `page{i}.png` (page.tsx line 248). -/
def imageName (i : Nat) : String := "page" ++ Nat.repr i ++ ".png"

/-- Name of the staged narration clip: `audio{i}.mp3` (page.tsx line 271). -/
def audioName (i : Nat) : String := "audio" ++ Nat.repr i ++ ".mp3"

/-- Name of the encoded segment: `seg{i}.mp4` (page.tsx line 286). -/
def segName (i : Nat) : String := "seg" ++ Nat.repr i ++ ".mp4"

/-- The per-page encode command for page `i` (page.tsx lines 287-310),
with `holdTime` and `fadeTime` the two timing state values. -/
def segCmd (holdTime fadeTime : ℚ) (i : Nat) : SegCmd where
  loopImage := true
  imageInput := imageName i
  audioInput := audioName i
  whooshInput := "whoosh.mp3"
  pixFmt := "yuv420p"
  fadeKind := "out"
  fadeStart := holdTime - fadeTime
  fadeDur := fadeTime
  narrDelayL := 0
  narrDelayR := 0
  whooshDelayL := (holdTime - fadeTime) * 1000
  whooshDelayR := (holdTime - fadeTime) * 1000
  amixInputs := 2
  amixDuration := "shortest"
  vcodec := "libx264"
  acodec := "aac"
  shortestFlag := true
  outName := segName i

/-- The final concatenation command (page.tsx lines 319-329). -/
def concatCmd : ConcatCmd where
  inputFormat := "concat"
  safeFlag := "0"
  inputName := "list.txt"
  codec := "copy"
  outName := "output.mp4"

/-- The concat manifest (`listFile` in the source, lines 282 and 311): the
header line followed, in loop order `i = 0 … n-1`, by one `file seg{i}.mp4`
line per page.  The source joins these lines with a single newline into
`list.txt`, so the list of lines is exactly the line structure of the file. -/
def listFile (n : Nat) : List String :=
  "ffconcat version 1.0" :: (List.range n).map (fun i => "file " ++ segName i)

/-- Everything one run of the export performs, in source order: the buffers
written into the FFmpeg virtual filesystem (step 4 and the whoosh write of
step 5), the sequence of `ffmpeg.exec` invocations, the manifest lines, and
the name of the buffer read back as the final video (line 330). -/
structure ExportRun where
  writes : List (String × Bytes)
  trace : List EngineCall
  manifest : List String
  outputName : String
deriving DecidableEq

/-- The run `downloadVideo` performs once past its guard, for a page list
`pages`, the fetched whoosh bytes, and the two timing values.  The source
performs the image and audio writes (lines 265-273), the whoosh write
(line 280), then the per-page encode loop (lines 283-312), then the single
concatenation (lines 319-329), and finally reads `output.mp4`. -/
def exportRun (pages : List PageAsset) (whooshBytes : Bytes)
    (holdTime fadeTime : ℚ) : ExportRun where
  writes :=
    (pages.enum.map fun p => (imageName p.1, p.2.imageBytes))
      ++ (pages.enum.map fun p => (audioName p.1, p.2.audioBytes))
      ++ [("whoosh.mp3", whooshBytes)]
  trace :=
    ((List.range pages.length).map fun i =>
      EngineCall.encode (segCmd holdTime fadeTime i))
      ++ [EngineCall.concat concatCmd]
  manifest := listFile pages.length
  outputName := "output.mp4"

/-- The `downloadVideo` entry point (page.tsx lines 220-343).  Its first
statement is `if (!story || !bookRef.current) return;`: with no story or no
rendered book element it returns at once, performing nothing (`none`).
Otherwise it runs the export.  The source contains no validation of
`holdTime`/`fadeTime` and no inspection of the image or audio bytes: every
input reaches `exportRun` unchecked. -/
def downloadVideo (story : Option (List PageAsset)) (bookPresent : Bool)
    (whooshBytes : Bytes) (holdTime fadeTime : ℚ) : Option ExportRun :=
  match story, bookPresent with
  | some pages, true => some (exportRun pages whooshBytes holdTime fadeTime)
  | _, _ => none

/-! ## Duration semantics of the engine invocation

The transcoding engine (FFmpeg) is an external collaborator; the following
definitions model the documented duration behaviour of exactly the filters
and flags the command template uses, so that claims about the produced
segment's length can be stated.

* `adelay=dL|dR` prepends `dL` (resp. `dR`) milliseconds of silence to the
  two channels; the stream's length grows by the larger delay.
* `amix=inputs=2:duration=shortest` mixes two streams and stops at the end
  of the shorter input; `duration=longest` (the default) would stop at the
  longer one, `duration=first` at the first input's end.
* `format` and `fade` do not change a stream's duration.
* an image input with `-loop 1` is an unbounded video stream (`none`).
* with `-shortest` the output stops at the shortest stream, an unbounded
  stream never being the shortest; without it, the output runs to the
  longest stream (unbounded if any stream is unbounded).

All lengths are in seconds. -/

/-- Output length of `adelay=dL|dR` applied to a stream of length `len`
(delays in milliseconds, length in seconds). -/
def adelayLen (delayMsL delayMsR len : ℚ) : ℚ :=
  max delayMsL delayMsR / 1000 + len

/-- Output length of `amix=inputs=2:duration=policy` on inputs of lengths
`l1` and `l2`. -/
def amixLen (policy : String) (l1 l2 : ℚ) : ℚ :=
  if policy = "shortest" then min l1 l2
  else if policy = "first" then l1
  else max l1 l2

/-- Length of the mixed audio stream `[aout]` a segment command produces,
given the narration clip length and the whoosh clip length: the narration
goes through `adelay=narrDelayL|narrDelayR`, the whoosh through
`adelay=whooshDelayL|whooshDelayR`, and both through `amix`. -/
def segAudioLen (c : SegCmd) (narrLen whooshLen : ℚ) : ℚ :=
  amixLen c.amixDuration
    (adelayLen c.narrDelayL c.narrDelayR narrLen)
    (adelayLen c.whooshDelayL c.whooshDelayR whooshLen)

/-- Length of the video stream `[v1]`: unbounded (`none`) when the still
image is looped with `-loop 1` (the `format` and `fade` filters keep the
duration); otherwise the still's intrinsic length. -/
def segVideoStreamLen (c : SegCmd) (stillLen : ℚ) : Option ℚ :=
  if c.loopImage then none else some stillLen

/-- Container length of the encoded segment (`none` = unbounded): with the
`-shortest` flag the output ends at the shortest mapped stream, without it
at the longest. -/
def segOutputLen (c : SegCmd) (stillLen narrLen whooshLen : ℚ) : Option ℚ :=
  match segVideoStreamLen c stillLen with
  | none =>
      if c.shortestFlag then some (segAudioLen c narrLen whooshLen) else none
  | some v =>
      if c.shortestFlag then some (min v (segAudioLen c narrLen whooshLen))
      else some (max v (segAudioLen c narrLen whooshLen))

/-- Video and audio codec parameters shared by every mapped stream of a
segment command: video codec, audio codec, pixel format. -/
def codecParams (c : SegCmd) : String × String × String :=
  (c.vcodec, c.acodec, c.pixFmt)

/-- Recognizer for the concatenation invocation among the engine calls. -/
def isConcatCall : EngineCall → Bool
  | EngineCall.concat _ => true
  | EngineCall.encode _ => false

end Storybook

namespace Storybook

/-! ## Injectivity of the decimal names

The per-page storage names embed the page index through `Nat.repr`.  The
following lemmas prove `Nat.repr` injective (via `Nat.digits`), so that
distinct pages get distinct segment names and distinct manifest lines. -/

/-- The digit characters of the ten decimal digits are pairwise distinct. -/
lemma digitChar_fin_inj :
    ∀ a b : Fin 10, Nat.digitChar a.val = Nat.digitChar b.val → a = b := by
  decide

/-- The map to digit characters is injective below ten. -/
lemma digitChar_inj_of_lt (a b : Nat) (ha : a < 10) (hb : b < 10)
    (h : Nat.digitChar a = Nat.digitChar b) : a = b :=
  congrArg Fin.val (digitChar_fin_inj ⟨a, ha⟩ ⟨b, hb⟩ h)

/-- Mapping `Nat.digitChar` over lists of decimal digits is injective. -/
lemma map_digitChar_inj :
    ∀ (l1 l2 : List Nat), (∀ x ∈ l1, x < 10) → (∀ x ∈ l2, x < 10) →
      l1.map Nat.digitChar = l2.map Nat.digitChar → l1 = l2
  | [], [], _, _, _ => rfl
  | [], _ :: _, _, _, h => by simp at h
  | _ :: _, [], _, _, h => by simp at h
  | a :: t1, b :: t2, h1, h2, h => by
      simp only [List.map_cons, List.cons.injEq] at h
      have hab : a = b :=
        digitChar_inj_of_lt a b (h1 a (by simp)) (h2 b (by simp)) h.1
      have ht : t1 = t2 :=
        map_digitChar_inj t1 t2 (fun x hx => h1 x (by simp [hx]))
          (fun x hx => h2 x (by simp [hx])) h.2
      rw [hab, ht]

/-- The fueled core of `Nat.toDigits` agrees with `Nat.digits` (reversed and
rendered) whenever the fuel exceeds the number. -/
lemma toDigitsCore_eq_digits :
    ∀ (fuel n : Nat) (ds : List Char), 0 < n → n < fuel →
      Nat.toDigitsCore 10 fuel n ds
        = ((Nat.digits 10 n).map Nat.digitChar).reverse ++ ds := by
  intro fuel
  induction fuel with
  | zero => exact fun n ds hn hf => absurd hf (Nat.not_lt_zero n)
  | succ f ih =>
    intro n ds hn hf
    rw [Nat.digits_def' (by norm_num : (1:Nat) < 10) hn]
    simp only [Nat.toDigitsCore]
    by_cases h10 : n / 10 = 0
    · simp [h10]
    · rw [if_neg h10]
      have hlt : n / 10 < f :=
        lt_of_lt_of_le (Nat.div_lt_self hn (by norm_num))
          (Nat.lt_succ_iff.mp hf)
      rw [ih (n / 10) _ (Nat.pos_of_ne_zero h10) hlt]
      simp

/-- Decimal rendering of a positive number, through `Nat.digits`. -/
lemma repr_pos_eq (n : Nat) (hn : 0 < n) :
    Nat.repr n = (((Nat.digits 10 n).map Nat.digitChar).reverse).asString := by
  show (Nat.toDigits 10 n).asString = _
  rw [Nat.toDigits,
    toDigitsCore_eq_digits (n + 1) n [] hn (Nat.lt_succ_self n),
    List.append_nil]

/-- Rendering a character list as a string is injective. -/
lemma asString_inj (l1 l2 : List Char) (h : l1.asString = l2.asString) :
    l1 = l2 :=
  congrArg String.data h

/-- Decimal rendering of naturals is injective. -/
theorem natRepr_injective : Function.Injective Nat.repr := by
  have key : ∀ m n : Nat, 0 < n → Nat.repr m = Nat.repr n → 0 < m → m = n := by
    intro m n hn h hm
    rw [repr_pos_eq m hm, repr_pos_eq n hn] at h
    have hmap : (Nat.digits 10 m).map Nat.digitChar
        = (Nat.digits 10 n).map Nat.digitChar :=
      List.reverse_injective (asString_inj _ _ h)
    have hdig : Nat.digits 10 m = Nat.digits 10 n :=
      map_digitChar_inj _ _
        (fun x hx => Nat.digits_lt_base (by norm_num) hx)
        (fun x hx => Nat.digits_lt_base (by norm_num) hx) hmap
    exact Nat.digits.injective 10 hdig
  have zero_case : ∀ n : Nat, Nat.repr 0 = Nat.repr n → 0 < n → False := by
    intro n h hn
    rw [repr_pos_eq n hn] at h
    have h0 : (['0'] : List Char).asString
        = (((Nat.digits 10 n).map Nat.digitChar).reverse).asString := h
    have hl : (['0'] : List Char) = ((Nat.digits 10 n).map Nat.digitChar).reverse :=
      asString_inj _ _ h0
    have hmap : (Nat.digits 10 n).map Nat.digitChar = ['0'] := by
      have := congrArg List.reverse hl
      simpa using this.symm
    have hmap0 : (Nat.digits 10 n).map Nat.digitChar
        = ([0] : List Nat).map Nat.digitChar := by simpa using hmap
    have hdig : Nat.digits 10 n = [0] :=
      map_digitChar_inj _ _
        (fun x hx => Nat.digits_lt_base (by norm_num) hx)
        (by intro x hx; simp at hx; omega) hmap0
    have := Nat.ofDigits_digits 10 n
    rw [hdig] at this
    simp [Nat.ofDigits] at this
    omega
  intro m n h
  rcases Nat.eq_zero_or_pos m with hm | hm
  · rcases Nat.eq_zero_or_pos n with hn | hn
    · rw [hm, hn]
    · subst hm; exact absurd h (fun hh => zero_case n hh hn)
  · rcases Nat.eq_zero_or_pos n with hn | hn
    · subst hn; exact absurd h.symm (fun hh => zero_case m hh hm)
    · exact key m n hn h hm

/-- Cancellation of a common prefix and suffix of string concatenations. -/
lemma string_append_inj_mid (a c s t : String)
    (h : a ++ s ++ c = a ++ t ++ c) : s = t := by
  apply String.ext
  have hd := congrArg String.data h
  simp only [String.data_append] at hd
  exact List.append_cancel_left (List.append_cancel_right hd)

/-- Distinct pages get distinct segment output names. -/
lemma segName_injective : Function.Injective segName := by
  intro i j h
  exact natRepr_injective
    (string_append_inj_mid "seg" ".mp4" (Nat.repr i) (Nat.repr j) h)

/-- Distinct pages get distinct manifest lines. -/
lemma manifestLine_injective :
    Function.Injective (fun i => "file " ++ segName i) := by
  intro i j h
  apply segName_injective
  apply String.ext
  have hd := congrArg String.data h
  simp only [String.data_append] at hd
  exact List.append_cancel_left hd

/-- The manifest header is not a segment reference line. -/
lemma header_ne_manifestLine (i : Nat) :
    ("ffconcat version 1.0" : String) ≠ "file " ++ segName i := by
  intro h
  have hd := congrArg String.data h
  simp only [String.data_append] at hd
  simp at hd

/-- No line of the manifest is blank: the header is not empty and every
entry line starts with `file `. -/
lemma manifest_no_blank (n : Nat) : ∀ l ∈ listFile n, l ≠ "" := by
  intro l hl
  rw [listFile, List.mem_cons] at hl
  rcases hl with hl | hl
  · subst hl; decide
  · rw [List.mem_map] at hl
    obtain ⟨i, _, hi⟩ := hl
    subst hi
    intro h
    have hd := congrArg String.data h
    simp only [String.data_append] at hd
    simp at hd

end Storybook

namespace Storybook

/-- The manifest contains the reference line of segment `i < n` exactly once. -/
lemma manifest_count_eq_one (n i : Nat) (hi : i < n) :
    (listFile n).count ("file " ++ segName i) = 1 := by
  rw [listFile, List.count_cons]
  have h0 : ((List.range n).map fun j => "file " ++ segName j).count
      ("file " ++ segName i) = 1 := by
    rw [List.count_map_of_injective (List.range n) _ manifestLine_injective i]
    exact List.count_eq_one_of_mem (List.nodup_range n)
      (List.mem_range.mpr hi)
  rw [h0]
  simp
  exact header_ne_manifestLine i

/-- C1: the claim says each page segment has visual length exactly
`holdSeconds`, independent of the narration length.  The source emits no
duration option: with `-loop 1` on the image and `-shortest` on the output,
the segment ends when the mixed audio ends.  Evaluated at
`holdSeconds = 4`, `fadeSeconds = 1/2`, whoosh length `1`: a narration of
length `2` yields a segment of length `2`, one of length `3` yields length
`3` — never `4`, and dependent on the narration.  This contradicts the
claim and the source's own comment `loop the image for holdTime seconds`. -/
theorem c1_visual_length_follows_audio :
    segOutputLen (segCmd 4 (1/2) 0) 1 2 1 = some 2 ∧
    segOutputLen (segCmd 4 (1/2) 0) 1 3 1 = some 3 ∧
    segOutputLen (segCmd 4 (1/2) 0) 1 2 1 ≠ some 4 := by
  refine ⟨?_, ?_, ?_⟩ <;>
    · simp [segOutputLen, segVideoStreamLen, segAudioLen, segCmd,
        amixLen, adelayLen]
      norm_num

/-- C2: every per-page command fades out starting at
`holdSeconds - fadeSeconds` for `fadeSeconds`, delays the whoosh by
`(holdSeconds - fadeSeconds) * 1000` milliseconds on both channels, and
starts the narration at time `0`. -/
theorem c2_fade_start_and_whoosh_delay (holdTime fadeTime : ℚ) (i : Nat)
    (h0 : 0 ≤ fadeTime) (h1 : fadeTime < holdTime) :
    (segCmd holdTime fadeTime i).fadeStart = holdTime - fadeTime ∧
    (segCmd holdTime fadeTime i).fadeDur = fadeTime ∧
    (segCmd holdTime fadeTime i).whooshDelayL = (holdTime - fadeTime) * 1000 ∧
    (segCmd holdTime fadeTime i).whooshDelayR = (holdTime - fadeTime) * 1000 ∧
    (segCmd holdTime fadeTime i).narrDelayL = 0 ∧
    (segCmd holdTime fadeTime i).narrDelayR = 0 :=
  ⟨rfl, rfl, rfl, rfl, rfl, rfl⟩

/-- Witness for C2 at `holdSeconds = 4`, `fadeSeconds = 1/2`: the fade
starts at `7/2 = 3.5` seconds and the whoosh is delayed by `3500`
milliseconds on both channels. -/
theorem c2_fade_start_and_whoosh_delay_witness :
    (0:ℚ) ≤ 1/2 ∧ (1/2:ℚ) < 4 ∧
    (segCmd 4 (1/2) 0).fadeStart = 7/2 ∧
    (segCmd 4 (1/2) 0).whooshDelayL = 3500 ∧
    (segCmd 4 (1/2) 0).whooshDelayR = 3500 ∧
    (segCmd 4 (1/2) 0).narrDelayL = 0 := by
  have h := c2_fade_start_and_whoosh_delay 4 (1/2) 0 (by norm_num) (by norm_num)
  refine ⟨by norm_num, by norm_num, ?_, ?_, ?_, h.2.2.2.2.1⟩
  · rw [h.1]; norm_num
  · rw [h.2.2.1]; norm_num
  · rw [h.2.2.2.1]; norm_num

/-- C3: for `n ≥ 1` pages the manifest has the header plus one line per
segment; the line at position `i + 1` references segment `i` (ascending
page order); every produced segment (output name `segName i`, as in the
per-page command) is referenced exactly once; and no line is blank. -/
theorem c3_manifest_complete_ordered_unique (n : Nat) (hn : 1 ≤ n) :
    (listFile n).length = n + 1 ∧
    (∀ i, i < n → (listFile n).get? (i + 1) = some ("file " ++ segName i)) ∧
    (∀ (holdTime fadeTime : ℚ) (i : Nat),
      (segCmd holdTime fadeTime i).outName = segName i) ∧
    (∀ i, i < n → (listFile n).count ("file " ++ segName i) = 1) ∧
    (∀ l ∈ listFile n, l ≠ "") := by
  refine ⟨by simp [listFile], ?_, fun _ _ _ => rfl,
    fun i hi => manifest_count_eq_one n i hi, manifest_no_blank n⟩
  intro i hi
  rw [listFile]
  simp [List.get?_eq_getElem?, List.getElem?_map, List.getElem?_range hi]

/-- Witness for C3 at `n = 2`. -/
theorem c3_manifest_complete_ordered_unique_witness :
    (1:Nat) ≤ 2 ∧ (listFile 2).length = 2 + 1 ∧
    (listFile 2).get? 1 = some ("file " ++ segName 0) ∧
    (listFile 2).count ("file " ++ segName 1) = 1 := by
  have h := c3_manifest_complete_ordered_unique 2 (by norm_num)
  exact ⟨by norm_num, h.1, h.2.1 0 (by norm_num), h.2.2.2.1 1 (by norm_num)⟩

/-- C4 counterexample: with exactly one page the pipeline does not bypass
concatenation — the final concat invocation is still present in the engine
trace of the run `downloadVideo` performs. -/
theorem c4_single_segment_concat_not_bypassed :
    downloadVideo (some [⟨[0], [1]⟩]) true [2] 4 (1/2)
      = some (exportRun [⟨[0], [1]⟩] [2] 4 (1/2)) ∧
    EngineCall.concat concatCmd ∈ (exportRun [⟨[0], [1]⟩] [2] 4 (1/2)).trace := by
  refine ⟨rfl, ?_⟩
  simp [exportRun]

/-- C4 amended: for one page, the pipeline still runs the concatenation
step — the trace is the single segment encode followed by the concat call,
and the final video is the concat command's output (`output.mp4`), not the
segment's own bytes. -/
theorem c4_amended_single_segment_still_concats (pg : PageAsset) (wb : Bytes)
    (holdTime fadeTime : ℚ) :
    downloadVideo (some [pg]) true wb holdTime fadeTime
      = some (exportRun [pg] wb holdTime fadeTime) ∧
    (exportRun [pg] wb holdTime fadeTime).trace
      = [EngineCall.encode (segCmd holdTime fadeTime 0),
         EngineCall.concat concatCmd] ∧
    (exportRun [pg] wb holdTime fadeTime).outputName = concatCmd.outName := by
  refine ⟨rfl, ?_, rfl⟩
  simp [exportRun, List.range_succ]

/-- C5: the claim says invalid timing (`fadeSeconds ≥ holdSeconds`) makes
the pipeline fail with `InvalidTimingConfig` before any engine invocation.
The source has no such check: at `holdSeconds = 4`, `fadeSeconds = 5` the
export still runs and its very first engine invocation is the page-0
encode, whose fade start is `-1` and whoosh delay `-1000` milliseconds. -/
theorem c5_invalid_timing_still_invokes_engine :
    downloadVideo (some [⟨[0], [1]⟩]) true [2] 4 5
      = some (exportRun [⟨[0], [1]⟩] [2] 4 5) ∧
    (exportRun [⟨[0], [1]⟩] [2] 4 5).trace.head?
      = some (EngineCall.encode (segCmd 4 5 0)) ∧
    (segCmd 4 5 0).fadeStart = -1 ∧
    (segCmd 4 5 0).whooshDelayL = -1000 := by
  refine ⟨rfl, ?_, ?_, ?_⟩
  · simp [exportRun, List.range_succ]
  · show (4:ℚ) - 5 = -1
    norm_num
  · show ((4:ℚ) - 5) * 1000 = -1000
    norm_num

/-- C6: the claim says a page with empty narration bytes makes the pipeline
fail with `InvalidPageAsset` for that index before invoking the engine for
that page.  The source inspects no bytes: with page 1 of 2 having empty
audio, the empty buffer is still staged as `audio1.mp3` and the page-1
encode command is still issued. -/
theorem c6_empty_audio_still_staged_and_encoded :
    downloadVideo (some [⟨[0], [1]⟩, ⟨[0], []⟩]) true [2] 4 (1/2)
      = some (exportRun [⟨[0], [1]⟩, ⟨[0], []⟩] [2] 4 (1/2)) ∧
    (audioName 1, ([] : Bytes))
      ∈ (exportRun [⟨[0], [1]⟩, ⟨[0], []⟩] [2] 4 (1/2)).writes ∧
    EngineCall.encode (segCmd 4 (1/2) 1)
      ∈ (exportRun [⟨[0], [1]⟩, ⟨[0], []⟩] [2] 4 (1/2)).trace := by
  refine ⟨rfl, ?_, ?_⟩
  · simp [exportRun, List.enum, List.enumFrom]
  · simp [exportRun, List.range_succ]

/-- C7: for every export of `n ≥ 1` pages, the engine trace is the `n`
per-page encodes, in page order, followed by exactly one concatenation
call; the concat call is last (after all encodes) and uses stream copy
(`-c copy`). -/
theorem c7_single_final_concat_after_all_encodes (pages : List PageAsset)
    (wb : Bytes) (holdTime fadeTime : ℚ) (hn : 1 ≤ pages.length) :
    (exportRun pages wb holdTime fadeTime).trace
      = ((List.range pages.length).map fun i =>
          EngineCall.encode (segCmd holdTime fadeTime i))
        ++ [EngineCall.concat concatCmd] ∧
    ((exportRun pages wb holdTime fadeTime).trace.countP
      (fun c => isConcatCall c)) = 1 ∧
    (exportRun pages wb holdTime fadeTime).trace.getLast?
      = some (EngineCall.concat concatCmd) ∧
    (∀ i, i < pages.length →
      (exportRun pages wb holdTime fadeTime).trace.get? i
        = some (EngineCall.encode (segCmd holdTime fadeTime i))) ∧
    concatCmd.codec = "copy" := by
  refine ⟨rfl, ?_, ?_, ?_, rfl⟩
  · show (((List.range pages.length).map fun i =>
        EngineCall.encode (segCmd holdTime fadeTime i))
        ++ [EngineCall.concat concatCmd]).countP (fun c => isConcatCall c) = 1
    rw [List.countP_append]
    have h0 : ((List.range pages.length).map fun i =>
        EngineCall.encode (segCmd holdTime fadeTime i)).countP
        (fun c => isConcatCall c) = 0 := by
      rw [List.countP_eq_zero]
      intro c hc
      rw [List.mem_map] at hc
      obtain ⟨i, _, hi⟩ := hc
      subst hi
      simp [isConcatCall]
    rw [h0]
    simp [isConcatCall]
  · show (((List.range pages.length).map fun i =>
        EngineCall.encode (segCmd holdTime fadeTime i))
        ++ [EngineCall.concat concatCmd]).getLast?
        = some (EngineCall.concat concatCmd)
    rw [List.getLast?_concat]
  · intro i hi
    show (((List.range pages.length).map fun i =>
        EngineCall.encode (segCmd holdTime fadeTime i))
        ++ [EngineCall.concat concatCmd]).get? i
        = some (EngineCall.encode (segCmd holdTime fadeTime i))
    rw [List.get?_eq_getElem?, List.getElem?_append_left (by simpa using hi)]
    simp [List.getElem?_map, List.getElem?_range hi]

/-- Witness for C7 at one page. -/
theorem c7_single_final_concat_after_all_encodes_witness :
    (1:Nat) ≤ ([⟨[0], [1]⟩] : List PageAsset).length ∧
    ((exportRun [⟨[0], [1]⟩] [2] 4 (1/2)).trace.countP
      (fun c => isConcatCall c)) = 1 ∧
    (exportRun [⟨[0], [1]⟩] [2] 4 (1/2)).trace.getLast?
      = some (EngineCall.concat concatCmd) ∧
    concatCmd.codec = "copy" := by
  have h := c7_single_final_concat_after_all_encodes [⟨[0], [1]⟩] [2] 4 (1/2)
    (by simp)
  exact ⟨by simp, h.2.1, h.2.2.1, h.2.2.2.2⟩

/-- C8: the mixed audio of every per-page command uses the `shortest`
duration policy: its length is the minimum of the two effective track
extents — the narration (starting at `0`, extent its own length) and the
delayed whoosh (extent `(holdSeconds - fadeSeconds) + whooshLen`) — and so
is bounded by whichever track finishes first, never padded beyond it. -/
theorem c8_mix_duration_shortest (holdTime fadeTime narrLen whooshLen : ℚ)
    (i : Nat) (h0 : 0 ≤ fadeTime) (h1 : fadeTime ≤ holdTime) :
    segAudioLen (segCmd holdTime fadeTime i) narrLen whooshLen
      = min narrLen ((holdTime - fadeTime) + whooshLen) ∧
    segAudioLen (segCmd holdTime fadeTime i) narrLen whooshLen ≤ narrLen ∧
    segAudioLen (segCmd holdTime fadeTime i) narrLen whooshLen
      ≤ (holdTime - fadeTime) + whooshLen := by
  have hdiv : ((holdTime - fadeTime) * 1000 : ℚ) / 1000 = holdTime - fadeTime := by
    rw [mul_div_assoc]
    norm_num
  have he : segAudioLen (segCmd holdTime fadeTime i) narrLen whooshLen
      = min narrLen ((holdTime - fadeTime) + whooshLen) := by
    show amixLen "shortest"
        (adelayLen 0 0 narrLen)
        (adelayLen ((holdTime - fadeTime) * 1000) ((holdTime - fadeTime) * 1000)
          whooshLen)
      = min narrLen ((holdTime - fadeTime) + whooshLen)
    rw [amixLen, adelayLen, adelayLen, max_self, max_self, if_pos rfl, hdiv]
    norm_num
  exact ⟨he, he ▸ min_le_left _ _, he ▸ min_le_right _ _⟩

/-- Witness for C8 at `holdSeconds = 4`, `fadeSeconds = 1/2`, narration of
length `2`, whoosh of length `1`: the mix length is `2` (the narration, the
earlier-finishing track). -/
theorem c8_mix_duration_shortest_witness :
    (0:ℚ) ≤ 1/2 ∧ (1/2:ℚ) ≤ 4 ∧
    segAudioLen (segCmd 4 (1/2) 0) 2 1 = 2 ∧
    segAudioLen (segCmd 4 (1/2) 0) 2 1 ≤ 2 := by
  have h := c8_mix_duration_shortest 4 (1/2) 2 1 0 (by norm_num) (by norm_num)
  refine ⟨by norm_num, by norm_num, ?_, h.2.1⟩
  rw [h.1]
  norm_num [min_def]

/-- C9: every per-page command of one export carries the same codec
parameters — `libx264` video, `aac` audio, `yuv420p` pixel format — since
the loop uses one fixed argument template; two segments of the same export
have equal codec settings by construction. -/
theorem c9_codec_params_constant (holdTime fadeTime : ℚ) (i j : Nat) :
    codecParams (segCmd holdTime fadeTime i)
      = codecParams (segCmd holdTime fadeTime j) ∧
    codecParams (segCmd holdTime fadeTime i) = ("libx264", "aac", "yuv420p") :=
  ⟨rfl, rfl⟩

/-- C10: with no story loaded or no rendered book element, `downloadVideo`
returns at its guard: no run (`none`) — no engine invocation, no buffer
write, no manifest, no output, no error. -/
theorem c10_guard_is_noop (story : Option (List PageAsset))
    (bookPresent : Bool) (wb : Bytes) (holdTime fadeTime : ℚ)
    (h : story = none ∨ bookPresent = false) :
    downloadVideo story bookPresent wb holdTime fadeTime = none := by
  rcases h with h | h
  · subst h
    cases bookPresent <;> rfl
  · subst h
    cases story <;> rfl

/-- Witness for C10: no story loaded. -/
theorem c10_guard_is_noop_witness :
    ((none : Option (List PageAsset)) = none ∨ true = false) ∧
    downloadVideo none true [0] 4 (1/2) = none :=
  ⟨Or.inl rfl, c10_guard_is_noop none true [0] 4 (1/2) (Or.inl rfl)⟩

end Storybook
